import Mathlib

/-!
Verification of the lookahead tokenizer (`src/lib.rs`).

The tokenizer wraps a lexer (modelled as a finite list of positioned
tokens plus the span position the lexer reports after exhaustion),
maintains a two-slot buffer (`current`, `next`) with position metadata,
skips tokens whose class matches an entry of the `ignore` vector, and
offers `expect` / `expect_multi` operations producing positioned errors.
-/

namespace TokenizerModel

/-- A token together with its byte offset and byte length, as produced by
the lexer (`lexer.next()` plus `lexer.span()`). -/
structure PTok (Token : Type) where
  tok : Token
  idx : Nat
  len : Nat
deriving DecidableEq

/-- The external lexer: the remaining token stream, plus the span start the
lexer reports once exhausted (logos reports `source.len()..source.len()`,
i.e. start `endPos` and length `0`). -/
structure Lexer (Token : Type) where
  toks : List (PTok Token)
  endPos : Nat
deriving DecidableEq

/-- `lexer.next()` together with the subsequent `lexer.span()`: pops the
first remaining token, or reports `none` with span `endPos..endPos`. -/
def lexNext {Token : Type} (lx : Lexer Token) : Option Token × Nat × Nat × Lexer Token :=
  match lx.toks with
  | [] => (none, lx.endPos, 0, lx)
  | q :: rest => (some q.tok, q.idx, q.len, ⟨rest, lx.endPos⟩)

/-- The `TypeEq` trait: payload-blind class equality of tokens. -/
class TypeEq (Token : Type) where
  type_eq : Token → Token → Bool

export TypeEq (type_eq)

/-- The `Debug` rendering of a token (Rust `{:?}` on the token type). -/
class DebugFmt (Token : Type) where
  fmt : Token → String

export DebugFmt (fmt)

/-- Rust `{:?}` rendering of a `Vec` of tokens: `[a, b, c]`. -/
def fmtList {Token : Type} [DebugFmt Token] (xs : List Token) : String :=
  "[" ++ String.intercalate ", " (xs.map fmt) ++ "]"

/-- The tokenizer state: the remaining lexer, the two-slot buffer with the
position metadata of each slot, and the ignore exemplars. -/
structure Tokenizer (Token : Type) where
  lexer : Lexer Token
  current : Option Token
  index : Nat
  len : Nat
  next : Option Token
  next_index : Nat
  next_len : Nat
  ignore : List Token
deriving DecidableEq

/-- `Tokenizer::can_ignore`: some ignore exemplar `t` has `t.type_eq(token)`. -/
def can_ignore {Token : Type} [TypeEq Token] (ignore : List Token) (token : Token) : Bool :=
  ignore.any (fun t => type_eq t token)

/-- The filter used by the loop in `Tokenizer::new`, which tests
`token.type_eq(t)` for each ignore exemplar `t` (argument order opposite
to `can_ignore`). -/
def newIgnored {Token : Type} [TypeEq Token] (ignore : List Token) (token : Token) : Bool :=
  ignore.any (fun t => type_eq token t)

/-- The skip loop over the remaining lexer list: keep popping while the
candidate token satisfies `p`; returns the slot triple (token, index,
length) and the remaining list.  Used by `Tokenizer::new`'s loop and by
the drain loop in `Iterator::next`. -/
def skipToks {Token : Type} (p : Token → Bool) (e : Nat) :
    List (PTok Token) → Option Token × Nat × Nat × List (PTok Token)
  | [] => (none, e, 0, [])
  | q :: rest => if p q.tok then skipToks p e rest else (some q.tok, q.idx, q.len, rest)

/-- The full skip loop starting from a candidate slot (token, index,
length): if the slot token satisfies `p`, pop-and-test repeatedly via
`skipToks`; otherwise the loop exits at once. -/
def skipW {Token : Type} (p : Token → Bool) (e : Nat) (n : Option Token) (ni nl : Nat)
    (toks : List (PTok Token)) : Option Token × Nat × Nat × List (PTok Token) :=
  match n with
  | none => (none, ni, nl, toks)
  | some t => if p t then skipToks p e toks else (some t, ni, nl, toks)

/-- `Tokenizer::new(lexer, ignore)`: `current` starts absent with position
fields `0`, the first token is pulled into `next` and leading ignorable
tokens are skipped eagerly. -/
def Tokenizer.new {Token : Type} [TypeEq Token] (lexer : Lexer Token) (ignore : List Token) :
    Tokenizer Token :=
  match lexNext lexer with
  | (n0, i0, l0, lx0) =>
    match skipW (newIgnored ignore) lx0.endPos n0 i0 l0 lx0.toks with
    | (n, ni, nl, toks) =>
      { lexer := ⟨toks, lx0.endPos⟩, current := none, index := 0, len := 0,
        next := n, next_index := ni, next_len := nl, ignore := ignore }

/-- The body of `Iterator::next` for `Tokenizer`, operating on the `next`
slot (token, index, length) and the remaining lexer list: shift `next`
into `current`, pull a fresh `next`; if the new `current` is ignorable
loop again, otherwise drain ignorable tokens out of `next` and return.
Returns (result, (current, index, len), (next, next_index, next_len),
remaining list). -/
def advGo {Token : Type} [TypeEq Token] (ignore : List Token) (e : Nat) :
    Option Token → Nat → Nat → List (PTok Token) →
    Option Token × (Option Token × Nat × Nat) × (Option Token × Nat × Nat) × List (PTok Token)
  | none, ni, nl, [] => (none, (none, ni, nl), (none, e, 0), [])
  | none, ni, nl, q :: rest => (none, (none, ni, nl), (some q.tok, q.idx, q.len), rest)
  | some t, ni, nl, toks =>
    if can_ignore ignore t then
      match toks with
      | [] => (none, (none, e, 0), (none, e, 0), [])
      | q :: rest => advGo ignore e (some q.tok) q.idx q.len rest
    else
      match skipToks (can_ignore ignore) e toks with
      | (n2, ni2, nl2, toks2) => (some t, (some t, ni, nl), (n2, ni2, nl2), toks2)

/-- `Iterator::next` on the tokenizer (`advance()`), returning the produced
value together with the mutated state. -/
def Tokenizer.advance {Token : Type} [TypeEq Token] (tz : Tokenizer Token) :
    Option Token × Tokenizer Token :=
  match advGo tz.ignore tz.lexer.endPos tz.next tz.next_index tz.next_len tz.lexer.toks with
  | (res, (c, i, l), (n, ni, nl), toks) =>
    (res, { tz with current := c, index := i, len := l, next := n, next_index := ni,
                    next_len := nl, lexer := ⟨toks, tz.lexer.endPos⟩ })

/-- `Tokenizer::peek`. -/
def Tokenizer.peek {Token : Type} (tz : Tokenizer Token) : Option Token :=
  tz.next

/-- The `Error` value: optional byte offset, optional byte length, message. -/
structure Error where
  index : Option Nat
  len : Option Nat
  msg : String
deriving DecidableEq

/-- `Tokenizer::error`: wraps the tokenizer's stored `index` and `len`
fields (always as `Some`) around the message. -/
def Tokenizer.error {Token : Type} (tz : Tokenizer Token) (msg : String) : Error :=
  ⟨some tz.index, some tz.len, msg⟩

/-- `Tokenizer::expect`: if a current token exists, advance first, then
compare classes; on success return the old current token, on mismatch an
error positioned by the post-advance fields.  With no current token,
return the end-of-file error without advancing. -/
def Tokenizer.expect {Token : Type} [TypeEq Token] [DebugFmt Token] (tz : Tokenizer Token)
    (token : Token) : Except Error Token × Tokenizer Token :=
  match tz.current with
  | some got =>
    let tz' := (tz.advance).2
    if type_eq token got then (Except.ok got, tz')
    else (Except.error (tz'.error ("expect token " ++ fmt token ++ " but got " ++ fmt got)), tz')
  | none =>
    (Except.error (tz.error ("expect token " ++ fmt token ++ " but got end of file")), tz)

/-- `Tokenizer::expect_multi`: like `expect` with a list of candidates. -/
def Tokenizer.expect_multi {Token : Type} [TypeEq Token] [DebugFmt Token] (tz : Tokenizer Token)
    (tokens : List Token) : Except Error Token × Tokenizer Token :=
  match tz.current with
  | some token =>
    let tz' := (tz.advance).2
    if tokens.any (fun t => type_eq token t) then (Except.ok token, tz')
    else
      (Except.error (tz'.error ("expect tokens " ++ fmtList tokens ++ " but got " ++ fmt token)),
       tz')
  | none =>
    (Except.error (tz.error ("expect tokens " ++ fmtList tokens ++ " but got end of file")), tz)

/-- Iterate `advance()` `k` times, keeping only the state. -/
def Tokenizer.advN {Token : Type} [TypeEq Token] : Nat → Tokenizer Token → Tokenizer Token
  | 0, tz => tz
  | k + 1, tz => Tokenizer.advN k (tz.advance).2

/-- The positioned emission of the tokenizer: results of successive
`advance()` calls (each with the `index`/`len` the state reports for it),
up to the first absent result, bounded by `fuel`. -/
def Tokenizer.emitP {Token : Type} [TypeEq Token] : Nat → Tokenizer Token → List (PTok Token)
  | 0, _ => []
  | fuel + 1, tz =>
    match tz.advance with
    | (none, _) => []
    | (some t, tz') => ⟨t, tz'.index, tz'.len⟩ :: Tokenizer.emitP fuel tz'

/-- The positioned stream still ahead of the tokenizer: the `next` slot
(with its position metadata) followed by the remaining lexer tokens. -/
def sOf {Token : Type} (n : Option Token) (ni nl : Nat) (toks : List (PTok Token)) :
    List (PTok Token) :=
  match n with
  | some t => ⟨t, ni, nl⟩ :: toks
  | none => toks

/-- The positioned stream of a tokenizer state. -/
def streamP {Token : Type} (tz : Tokenizer Token) : List (PTok Token) :=
  sOf tz.next tz.next_index tz.next_len tz.lexer.toks

/-- The raw result of the `Iterator::next` body on a tokenizer state. -/
def advRes {Token : Type} [TypeEq Token] (tz : Tokenizer Token) :
    Option Token × (Option Token × Nat × Nat) × (Option Token × Nat × Nat) × List (PTok Token) :=
  advGo tz.ignore tz.lexer.endPos tz.next tz.next_index tz.next_len tz.lexer.toks

/-- Basic reachability invariant: the `next` slot empties only when the
lexer is exhausted. -/
def Inv3 {Token : Type} (tz : Tokenizer Token) : Prop :=
  tz.next = none → tz.lexer.toks = []

/-- The terminal state: both slots absent and the lexer exhausted. -/
def DeadState {Token : Type} (tz : Tokenizer Token) : Prop :=
  tz.current = none ∧ tz.next = none ∧ tz.lexer.toks = []

/-- An optional token holds no ignorable token (w.r.t. `can_ignore`). -/
def optNoIgn {Token : Type} [TypeEq Token] (I : List Token) (o : Option Token) : Bool :=
  Option.all (fun t => !can_ignore I t) o

/-- Symmetry of the class-equality predicate, the contract the spec puts on
`TypeEq` implementations. -/
def TypeEqSymm (Token : Type) [TypeEq Token] : Prop :=
  ∀ a b : Token, type_eq a b = type_eq b a

end TokenizerModel

namespace TokenizerModel

/-- The concrete token type of the repository's test (`tests/aaa.rs`). -/
inductive Tok where
  | A (s : String)
  | Space
  | Unknown
deriving DecidableEq

instance : TypeEq Tok where
  type_eq a b :=
    match a, b with
    | .A _, .A _ => true
    | .Space, .Space => true
    | _, _ => false

instance : DebugFmt Tok where
  fmt t :=
    match t with
    | .A s => "A(\"" ++ s ++ "\")"
    | .Space => "Space"
    | .Unknown => "Unknown"

/-- The lexer for the test source `"  aa aaaa aa a"`. -/
def aaaLexer : Lexer Tok :=
  ⟨[⟨.Space, 0, 1⟩, ⟨.Space, 1, 1⟩, ⟨.A "aa", 2, 2⟩, ⟨.Space, 4, 1⟩, ⟨.A "aaaa", 5, 4⟩,
    ⟨.Space, 9, 1⟩, ⟨.A "aa", 10, 2⟩, ⟨.Space, 12, 1⟩, ⟨.A "a", 13, 1⟩], 14⟩

deriving instance DecidableEq for Except

/-- Projection of the message of an error result. -/
def errMsgOf {α : Type} : Except Error α → Option String
  | .error e => some e.msg
  | .ok _ => none

/-- True iff an expectation result is `Ok`. -/
def exOk {α : Type} : Except Error α → Bool
  | .ok _ => true
  | .error _ => false

/-- A reachable state with `current = A "aa"` (index 0, len 2) and
`next = A "b"` (index 3, len 1): one advance on a two-token source. -/
def c1State : Tokenizer Tok :=
  Tokenizer.advN 1 (Tokenizer.new ⟨[⟨.A "aa", 0, 2⟩, ⟨.A "b", 3, 1⟩], 4⟩ [])

/-- The state of a tokenizer built over an empty source: no current token. -/
def c2State : Tokenizer Tok :=
  Tokenizer.new ⟨[], 0⟩ []

/-- Sanity trace mirroring `tests/aaa.rs` line by line. -/
theorem aaa_trace :
    (Tokenizer.new aaaLexer [Tok.Space]).current = none ∧
    (Tokenizer.new aaaLexer [Tok.Space]).peek = some (Tok.A "aa") ∧
    ((Tokenizer.new aaaLexer [Tok.Space]).advance.1 = some (Tok.A "aa")) ∧
    ((Tokenizer.advN 1 (Tokenizer.new aaaLexer [Tok.Space])).current = some (Tok.A "aa")) ∧
    ((Tokenizer.advN 1 (Tokenizer.new aaaLexer [Tok.Space])).peek = some (Tok.A "aaaa")) ∧
    ((Tokenizer.advN 1 (Tokenizer.new aaaLexer [Tok.Space])).advance.1 = some (Tok.A "aaaa")) ∧
    ((Tokenizer.advN 2 (Tokenizer.new aaaLexer [Tok.Space])).advance.1 = some (Tok.A "aa")) ∧
    ((Tokenizer.advN 3 (Tokenizer.new aaaLexer [Tok.Space])).peek = some (Tok.A "a")) ∧
    ((Tokenizer.advN 3 (Tokenizer.new aaaLexer [Tok.Space])).advance.1 = some (Tok.A "a")) ∧
    ((Tokenizer.advN 4 (Tokenizer.new aaaLexer [Tok.Space])).peek = none) ∧
    ((Tokenizer.advN 4 (Tokenizer.new aaaLexer [Tok.Space])).current = some (Tok.A "a")) ∧
    ((Tokenizer.advN 4 (Tokenizer.new aaaLexer [Tok.Space])).advance.1 = none) ∧
    ((Tokenizer.advN 5 (Tokenizer.new aaaLexer [Tok.Space])).current = none) ∧
    ((Tokenizer.advN 5 (Tokenizer.new aaaLexer [Tok.Space])).peek = none) := by
  decide

theorem dropWhile_head_false {α : Type} (p : α → Bool) :
    ∀ (l : List α) (q : α) (rest : List α), l.dropWhile p = q :: rest → p q = false := by
  intro l
  induction l with
  | nil => intro q rest h; simp at h
  | cons a t ih =>
    intro q rest h
    rw [List.dropWhile_cons] at h
    cases hp : p a
    · rw [hp] at h
      simp only [Bool.false_eq_true, if_false, List.cons.injEq] at h
      rw [← h.1]
      exact hp
    · rw [hp] at h
      simp only [if_true] at h
      exact ih q rest h

theorem filter_dropWhile_eq {α : Type} (p : α → Bool) :
    ∀ l : List α, (l.dropWhile p).filter (fun x => !p x) = l.filter (fun x => !p x) := by
  intro l
  induction l with
  | nil => rfl
  | cons a t ih =>
    rw [List.dropWhile_cons]
    cases hp : p a
    · simp [List.filter_cons, hp]
    · simp [List.filter_cons, hp, ih]

theorem head?_drop_eq {α : Type} : ∀ (l : List α) (n : Nat), (l.drop n).head? = l[n]? := by
  intro l
  induction l with
  | nil => intro n; cases n <;> simp
  | cons a t ih =>
    intro n
    cases n with
    | zero => simp
    | succ m => rw [List.drop_succ_cons, List.getElem?_cons_succ]; exact ih m

theorem length_dropWhile_le {α : Type} (p : α → Bool) (l : List α) :
    (l.dropWhile p).length ≤ l.length :=
  (List.dropWhile_suffix p).sublist.length_le

theorem skipToks_eq {Token : Type} (p : Token → Bool) (e : Nat) :
    ∀ toks : List (PTok Token),
      skipToks p e toks =
        match toks.dropWhile (fun x => p x.tok) with
        | [] => (none, e, 0, [])
        | q :: rest => (some q.tok, q.idx, q.len, rest) := by
  intro toks
  induction toks with
  | nil => rfl
  | cons q rest ih =>
    rw [List.dropWhile_cons]
    cases hp : p q.tok
    · simp [skipToks, hp]
    · simp [skipToks, hp, ih]

theorem skipW_nil {Token : Type} (p : Token → Bool) (e : Nat) (n : Option Token) (ni nl : Nat)
    (toks : List (PTok Token)) (h0 : n = none → toks = [])
    (h : (sOf n ni nl toks).dropWhile (fun x => p x.tok) = []) :
    (skipW p e n ni nl toks).1 = none ∧ (skipW p e n ni nl toks).2.2.2 = [] := by
  cases n with
  | none =>
    have ht : toks = [] := h0 rfl
    subst ht
    simp [skipW]
  | some t =>
    rw [show sOf (some t) ni nl toks = ⟨t, ni, nl⟩ :: toks from rfl, List.dropWhile_cons] at h
    cases hp : p t
    · rw [hp] at h; simp at h
    · rw [hp] at h
      simp only [if_true] at h
      rw [show skipW p e (some t) ni nl toks = skipToks p e toks from by simp [skipW, hp],
        skipToks_eq, h]
      exact ⟨rfl, rfl⟩

theorem skipW_cons {Token : Type} (p : Token → Bool) (e : Nat) (n : Option Token) (ni nl : Nat)
    (toks : List (PTok Token)) (q : PTok Token) (rest : List (PTok Token))
    (h0 : n = none → toks = [])
    (h : (sOf n ni nl toks).dropWhile (fun x => p x.tok) = q :: rest) :
    skipW p e n ni nl toks = (some q.tok, q.idx, q.len, rest) := by
  cases n with
  | none =>
    have ht : toks = [] := h0 rfl
    subst ht
    simp [sOf] at h
  | some t =>
    rw [show sOf (some t) ni nl toks = ⟨t, ni, nl⟩ :: toks from rfl, List.dropWhile_cons] at h
    cases hp : p t
    · rw [hp] at h
      simp only [Bool.false_eq_true, if_false, List.cons.injEq] at h
      rw [show skipW p e (some t) ni nl toks = (some t, ni, nl, toks) from by simp [skipW, hp],
        ← h.1, h.2]
    · rw [hp] at h
      simp only [if_true] at h
      rw [show skipW p e (some t) ni nl toks = skipToks p e toks from by simp [skipW, hp],
        skipToks_eq, h]

theorem advGo_nil {Token : Type} [TypeEq Token] (I : List Token) (e : Nat) :
    ∀ (toks : List (PTok Token)) (n : Option Token) (ni nl : Nat),
      (n = none → toks = []) →
      (sOf n ni nl toks).dropWhile (fun x => can_ignore I x.tok) = [] →
      (advGo I e n ni nl toks).1 = none ∧
      (advGo I e n ni nl toks).2.1.1 = none ∧
      (advGo I e n ni nl toks).2.2.1.1 = none ∧
      (advGo I e n ni nl toks).2.2.2 = [] := by
  intro toks
  induction toks with
  | nil =>
    intro n ni nl h0 h
    cases n with
    | none => simp [advGo]
    | some t =>
      rw [show sOf (some t) ni nl [] = [⟨t, ni, nl⟩] from rfl, List.dropWhile_cons] at h
      cases hig : can_ignore I t
      · rw [hig] at h; simp at h
      · rw [hig] at h
        simp [advGo, hig]
  | cons q rest ih =>
    intro n ni nl h0 h
    cases n with
    | none => simp at h0
    | some t =>
      rw [show sOf (some t) ni nl (q :: rest) = ⟨t, ni, nl⟩ :: q :: rest from rfl,
        List.dropWhile_cons] at h
      cases hig : can_ignore I t
      · rw [hig] at h; simp at h
      · rw [hig] at h
        simp only [if_true] at h
        rw [show advGo I e (some t) ni nl (q :: rest) = advGo I e (some q.tok) q.idx q.len rest
          from by simp [advGo, hig]]
        refine ih (some q.tok) q.idx q.len (by simp) ?_
        rw [show sOf (some q.tok) q.idx q.len rest = q :: rest from rfl]
        exact h

theorem advGo_cons {Token : Type} [TypeEq Token] (I : List Token) (e : Nat) :
    ∀ (toks : List (PTok Token)) (n : Option Token) (ni nl : Nat) (q : PTok Token)
      (rest : List (PTok Token)),
      (n = none → toks = []) →
      (sOf n ni nl toks).dropWhile (fun x => can_ignore I x.tok) = q :: rest →
      advGo I e n ni nl toks =
        (match skipToks (can_ignore I) e rest with
         | (n2, ni2, nl2, toks2) => (some q.tok, (some q.tok, q.idx, q.len), (n2, ni2, nl2), toks2)) := by
  intro toks
  induction toks with
  | nil =>
    intro n ni nl q rest h0 h
    cases n with
    | none => simp [sOf] at h
    | some t =>
      rw [show sOf (some t) ni nl [] = [⟨t, ni, nl⟩] from rfl, List.dropWhile_cons] at h
      cases hig : can_ignore I t
      · rw [hig] at h
        simp only [Bool.false_eq_true, if_false, List.cons.injEq] at h
        rw [show advGo I e (some t) ni nl [] =
            (match skipToks (can_ignore I) e [] with
             | (n2, ni2, nl2, toks2) => (some t, (some t, ni, nl), (n2, ni2, nl2), toks2))
          from by simp [advGo, skipToks, hig], ← h.1, ← h.2]
      · rw [hig] at h; simp at h
  | cons p rest0 ih =>
    intro n ni nl q rest h0 h
    cases n with
    | none => simp at h0
    | some t =>
      rw [show sOf (some t) ni nl (p :: rest0) = ⟨t, ni, nl⟩ :: p :: rest0 from rfl,
        List.dropWhile_cons] at h
      cases hig : can_ignore I t
      · rw [hig] at h
        simp only [Bool.false_eq_true, if_false, List.cons.injEq] at h
        rw [show advGo I e (some t) ni nl (p :: rest0) =
            (match skipToks (can_ignore I) e (p :: rest0) with
             | (n2, ni2, nl2, toks2) => (some t, (some t, ni, nl), (n2, ni2, nl2), toks2))
          from by simp [advGo, hig], ← h.1, ← h.2]
      · rw [hig] at h
        simp only [if_true] at h
        rw [show advGo I e (some t) ni nl (p :: rest0) = advGo I e (some p.tok) p.idx p.len rest0
          from by simp [advGo, hig]]
        refine ih (some p.tok) p.idx p.len q rest (by simp) ?_
        rw [show sOf (some p.tok) p.idx p.len rest0 = p :: rest0 from rfl]
        exact h

theorem advance_unfold {Token : Type} [TypeEq Token] (tz : Tokenizer Token) :
    tz.advance = ((advRes tz).1,
      { tz with current := (advRes tz).2.1.1, index := (advRes tz).2.1.2.1,
                len := (advRes tz).2.1.2.2, next := (advRes tz).2.2.1.1,
                next_index := (advRes tz).2.2.1.2.1, next_len := (advRes tz).2.2.1.2.2,
                lexer := ⟨(advRes tz).2.2.2, tz.lexer.endPos⟩ }) := rfl

theorem advance_exhaust {Token : Type} [TypeEq Token] {tz : Tokenizer Token} (h0 : Inv3 tz)
    (h : (streamP tz).dropWhile (fun x => can_ignore tz.ignore x.tok) = []) :
    (tz.advance).1 = none ∧ (tz.advance).2.current = none ∧ (tz.advance).2.next = none ∧
    (tz.advance).2.lexer.toks = [] := by
  obtain ⟨h1, h2, h3, h4⟩ :=
    advGo_nil tz.ignore tz.lexer.endPos tz.lexer.toks tz.next tz.next_index tz.next_len h0 h
  exact ⟨h1, h2, h3, h4⟩

theorem advance_step {Token : Type} [TypeEq Token] {tz : Tokenizer Token} {q : PTok Token}
    {rest : List (PTok Token)} (h0 : Inv3 tz)
    (h : (streamP tz).dropWhile (fun x => can_ignore tz.ignore x.tok) = q :: rest) :
    (tz.advance).1 = some q.tok ∧ (tz.advance).2.current = some q.tok ∧
    (tz.advance).2.index = q.idx ∧ (tz.advance).2.len = q.len ∧
    streamP (tz.advance).2 = rest.dropWhile (fun x => can_ignore tz.ignore x.tok) ∧
    Inv3 (tz.advance).2 ∧ optNoIgn tz.ignore ((tz.advance).2.next) = true := by
  have hg :=
    advGo_cons tz.ignore tz.lexer.endPos tz.lexer.toks tz.next tz.next_index tz.next_len q rest h0 h
  rw [skipToks_eq] at hg
  have hadv := advance_unfold tz
  cases hr : rest.dropWhile (fun x => can_ignore tz.ignore x.tok) with
  | nil =>
    rw [hr] at hg
    rw [show advRes tz =
        advGo tz.ignore tz.lexer.endPos tz.next tz.next_index tz.next_len tz.lexer.toks
      from rfl, hg] at hadv
    rw [hadv]
    refine ⟨rfl, rfl, rfl, rfl, ?_, ?_, ?_⟩
    · rfl
    · intro _; rfl
    · rfl
  | cons r rs =>
    rw [hr] at hg
    rw [show advRes tz =
        advGo tz.ignore tz.lexer.endPos tz.next tz.next_index tz.next_len tz.lexer.toks
      from rfl, hg] at hadv
    rw [hadv]
    refine ⟨rfl, rfl, rfl, rfl, ?_, ?_, ?_⟩
    · rfl
    · intro hc; exact Option.noConfusion hc
    · have hri : can_ignore tz.ignore r.tok = false :=
        dropWhile_head_false _ rest r rs hr
      show Option.all (fun t => !can_ignore tz.ignore t) (some r.tok) = true
      simp [hri]

theorem advance_ignore {Token : Type} [TypeEq Token] (tz : Tokenizer Token) :
    (tz.advance).2.ignore = tz.ignore := rfl

theorem advance_endPos {Token : Type} [TypeEq Token] (tz : Tokenizer Token) :
    (tz.advance).2.lexer.endPos = tz.lexer.endPos := rfl

theorem sOf_none {Token : Type} (ni nl : Nat) (toks : List (PTok Token)) :
    sOf none ni nl toks = toks := rfl

theorem new_spec {Token : Type} [TypeEq Token] (lx : Lexer Token) (I : List Token) :
    (Tokenizer.new lx I).current = none ∧ (Tokenizer.new lx I).index = 0 ∧
    (Tokenizer.new lx I).len = 0 ∧ (Tokenizer.new lx I).ignore = I ∧
    (Tokenizer.new lx I).lexer.endPos = lx.endPos ∧ Inv3 (Tokenizer.new lx I) ∧
    streamP (Tokenizer.new lx I) = lx.toks.dropWhile (fun x => newIgnored I x.tok) := by
  obtain ⟨toks, e⟩ := lx
  cases toks with
  | nil =>
    refine ⟨rfl, rfl, rfl, rfl, rfl, fun _ => rfl, rfl⟩
  | cons q rest =>
    cases hd : (sOf (some q.tok) q.idx q.len rest).dropWhile (fun x => newIgnored I x.tok) with
    | nil =>
      obtain ⟨h1, h2⟩ := skipW_nil (newIgnored I) e (some q.tok) q.idx q.len rest (by simp) hd
      refine ⟨rfl, rfl, rfl, rfl, rfl, fun _ => h2, ?_⟩
      have hst : streamP (Tokenizer.new ⟨q :: rest, e⟩ I) =
          sOf (skipW (newIgnored I) e (some q.tok) q.idx q.len rest).1
              (skipW (newIgnored I) e (some q.tok) q.idx q.len rest).2.1
              (skipW (newIgnored I) e (some q.tok) q.idx q.len rest).2.2.1
              (skipW (newIgnored I) e (some q.tok) q.idx q.len rest).2.2.2 := rfl
      rw [hst, h1, h2, sOf_none]
      exact hd.symm
    | cons r rs =>
      have hs := skipW_cons (newIgnored I) e (some q.tok) q.idx q.len rest r rs (by simp) hd
      refine ⟨rfl, rfl, rfl, rfl, rfl, ?_, ?_⟩
      · intro hc
        have hc2 : (skipW (newIgnored I) e (some q.tok) q.idx q.len rest).1 = none := hc
        rw [hs] at hc2
        exact Option.noConfusion hc2
      · have hst : streamP (Tokenizer.new ⟨q :: rest, e⟩ I) =
            sOf (skipW (newIgnored I) e (some q.tok) q.idx q.len rest).1
                (skipW (newIgnored I) e (some q.tok) q.idx q.len rest).2.1
                (skipW (newIgnored I) e (some q.tok) q.idx q.len rest).2.2.1
                (skipW (newIgnored I) e (some q.tok) q.idx q.len rest).2.2.2 := rfl
        rw [hst, hs]
        exact hd.symm

theorem peek_streamP {Token : Type} [TypeEq Token] (tz : Tokenizer Token) (h0 : Inv3 tz) :
    tz.peek = ((streamP tz).head?).map PTok.tok := by
  cases hn : tz.next with
  | none =>
    have ht := h0 hn
    simp [Tokenizer.peek, streamP, hn, ht, sOf]
  | some t =>
    simp [Tokenizer.peek, streamP, hn, sOf]

theorem advance_inv3 {Token : Type} [TypeEq Token] {tz : Tokenizer Token} (h0 : Inv3 tz) :
    Inv3 (tz.advance).2 := by
  cases hd : (streamP tz).dropWhile (fun x => can_ignore tz.ignore x.tok) with
  | nil =>
    obtain ⟨_, _, _, ht⟩ := advance_exhaust h0 hd
    exact fun _ => ht
  | cons q rest => exact (advance_step h0 hd).2.2.2.2.2.1

theorem advance_filter {Token : Type} [TypeEq Token] {tz : Tokenizer Token} (h0 : Inv3 tz) :
    (streamP (tz.advance).2).filter (fun x => !can_ignore tz.ignore x.tok) =
      ((streamP tz).filter (fun x => !can_ignore tz.ignore x.tok)).drop 1 := by
  cases hd : (streamP tz).dropWhile (fun x => can_ignore tz.ignore x.tok) with
  | nil =>
    obtain ⟨_, _, hn, ht⟩ := advance_exhaust h0 hd
    have h1 : streamP (tz.advance).2 = [] := by
      simp [streamP, hn, ht, sOf]
    rw [h1, ← filter_dropWhile_eq (fun x => can_ignore tz.ignore x.tok) (streamP tz), hd]
    rfl
  | cons q rest =>
    obtain ⟨_, _, _, _, hstream, _, _⟩ := advance_step h0 hd
    rw [hstream, filter_dropWhile_eq,
      ← filter_dropWhile_eq (fun x => can_ignore tz.ignore x.tok) (streamP tz), hd]
    have hq : can_ignore tz.ignore q.tok = false :=
      dropWhile_head_false (fun x => can_ignore tz.ignore x.tok) (streamP tz) q rest hd
    simp [List.filter_cons, hq]

theorem advance_good {Token : Type} [TypeEq Token] {tz : Tokenizer Token} (h0 : Inv3 tz) :
    optNoIgn tz.ignore ((tz.advance).2.current) = true ∧
    optNoIgn tz.ignore ((tz.advance).2.next) = true := by
  cases hd : (streamP tz).dropWhile (fun x => can_ignore tz.ignore x.tok) with
  | nil =>
    obtain ⟨_, hc, hn, _⟩ := advance_exhaust h0 hd
    rw [hc, hn]
    exact ⟨rfl, rfl⟩
  | cons q rest =>
    obtain ⟨_, hc, _, _, _, _, hgood⟩ := advance_step h0 hd
    have hq : can_ignore tz.ignore q.tok = false :=
      dropWhile_head_false (fun x => can_ignore tz.ignore x.tok) (streamP tz) q rest hd
    rw [hc]
    exact ⟨by simp [optNoIgn, hq], hgood⟩

theorem advance_res_head {Token : Type} [TypeEq Token] {tz : Tokenizer Token} (h0 : Inv3 tz) :
    (tz.advance).1 =
      (((streamP tz).filter (fun x => !can_ignore tz.ignore x.tok)).head?).map PTok.tok := by
  cases hd : (streamP tz).dropWhile (fun x => can_ignore tz.ignore x.tok) with
  | nil =>
    obtain ⟨h1, _, _, _⟩ := advance_exhaust h0 hd
    rw [h1, ← filter_dropWhile_eq (fun x => can_ignore tz.ignore x.tok) (streamP tz), hd]
    rfl
  | cons q rest =>
    obtain ⟨h1, _, _, _, _, _, _⟩ := advance_step h0 hd
    rw [h1, ← filter_dropWhile_eq (fun x => can_ignore tz.ignore x.tok) (streamP tz), hd]
    have hq : can_ignore tz.ignore q.tok = false :=
      dropWhile_head_false (fun x => can_ignore tz.ignore x.tok) (streamP tz) q rest hd
    simp [List.filter_cons, hq]

theorem newIgnored_eq_can {Token : Type} [TypeEq Token] (hs : TypeEqSymm Token)
    (I : List Token) (t : Token) : newIgnored I t = can_ignore I t := by
  induction I with
  | nil => rfl
  | cons a l ih =>
    simp only [newIgnored, can_ignore, List.any_cons] at ih ⊢
    rw [hs t a, ih]

theorem dropWhile_newIgnored_eq {Token : Type} [TypeEq Token] (hs : TypeEqSymm Token)
    (I : List Token) (l : List (PTok Token)) :
    l.dropWhile (fun x => newIgnored I x.tok) = l.dropWhile (fun x => can_ignore I x.tok) := by
  have hp : (fun x : PTok Token => newIgnored I x.tok) = (fun x => can_ignore I x.tok) :=
    funext fun x => newIgnored_eq_can hs I x.tok
  rw [hp]

theorem advN_succ_comm {Token : Type} [TypeEq Token] :
    ∀ (k : Nat) (tz : Tokenizer Token),
      Tokenizer.advN (k + 1) tz = ((Tokenizer.advN k tz).advance).2 := by
  intro k
  induction k with
  | zero => intro tz; rfl
  | succ m ih => intro tz; exact ih (tz.advance).2

theorem advN_spec {Token : Type} [TypeEq Token] :
    ∀ (k : Nat) (tz : Tokenizer Token), Inv3 tz →
      Inv3 (Tokenizer.advN k tz) ∧ (Tokenizer.advN k tz).ignore = tz.ignore ∧
      (streamP (Tokenizer.advN k tz)).filter (fun x => !can_ignore tz.ignore x.tok) =
        ((streamP tz).filter (fun x => !can_ignore tz.ignore x.tok)).drop k := by
  intro k
  induction k with
  | zero => intro tz h0; exact ⟨h0, rfl, rfl⟩
  | succ m ih =>
    intro tz h0
    obtain ⟨i1, i2, i3⟩ := ih (tz.advance).2 (advance_inv3 h0)
    simp only [advance_ignore] at i2 i3
    refine ⟨i1, ?_, ?_⟩
    · rw [show Tokenizer.advN (m + 1) tz = Tokenizer.advN m ((tz.advance).2) from rfl, i2]
    · rw [show Tokenizer.advN (m + 1) tz = Tokenizer.advN m ((tz.advance).2) from rfl, i3,
        advance_filter h0, List.drop_drop, Nat.add_comm]

theorem emitP_eq {Token : Type} [TypeEq Token] :
    ∀ (fuel : Nat) (tz : Tokenizer Token), Inv3 tz → (streamP tz).length < fuel →
      Tokenizer.emitP fuel tz = (streamP tz).filter (fun x => !can_ignore tz.ignore x.tok) := by
  intro fuel
  induction fuel with
  | zero => intro tz _ h; exact absurd h (Nat.not_lt_zero _)
  | succ f ih =>
    intro tz h0 hlen
    cases hd : (streamP tz).dropWhile (fun x => can_ignore tz.ignore x.tok) with
    | nil =>
      obtain ⟨h1, _, _, _⟩ := advance_exhaust h0 hd
      have hemit : Tokenizer.emitP (f + 1) tz = [] := by
        rw [show Tokenizer.emitP (f + 1) tz =
            (match tz.advance with
             | (none, _) => []
             | (some t, tz') => ⟨t, tz'.index, tz'.len⟩ :: Tokenizer.emitP f tz') from rfl,
          show tz.advance = ((tz.advance).1, (tz.advance).2) from rfl, h1]
      rw [hemit, ← filter_dropWhile_eq (fun x => can_ignore tz.ignore x.tok) (streamP tz), hd]
      rfl
    | cons q rest =>
      obtain ⟨h1, _, hidx, hlen2, hstream, hinv, _⟩ := advance_step h0 hd
      have hemit : Tokenizer.emitP (f + 1) tz =
          ⟨q.tok, (tz.advance).2.index, (tz.advance).2.len⟩ ::
            Tokenizer.emitP f (tz.advance).2 := by
        rw [show Tokenizer.emitP (f + 1) tz =
            (match tz.advance with
             | (none, _) => []
             | (some t, tz') => ⟨t, tz'.index, tz'.len⟩ :: Tokenizer.emitP f tz') from rfl,
          show tz.advance = ((tz.advance).1, (tz.advance).2) from rfl, h1]
      rw [hemit, hidx, hlen2, show (⟨q.tok, q.idx, q.len⟩ : PTok Token) = q from rfl]
      have hlen3 : (streamP (tz.advance).2).length < f := by
        rw [hstream]
        have a1 : (rest.dropWhile (fun x => can_ignore tz.ignore x.tok)).length ≤ rest.length :=
          length_dropWhile_le _ _
        have a2 : ((streamP tz).dropWhile
            (fun x => can_ignore tz.ignore x.tok)).length ≤ (streamP tz).length :=
          length_dropWhile_le _ _
        rw [hd] at a2
        simp only [List.length_cons] at a2
        omega
      have hih := ih (tz.advance).2 hinv hlen3
      simp only [advance_ignore] at hih
      rw [hih, hstream, filter_dropWhile_eq,
        ← filter_dropWhile_eq (fun x => can_ignore tz.ignore x.tok) (streamP tz), hd]
      have hq : can_ignore tz.ignore q.tok = false :=
        dropWhile_head_false (fun x => can_ignore tz.ignore x.tok) (streamP tz) q rest hd
      simp [List.filter_cons, hq]

theorem peek_filter_head {Token : Type} [TypeEq Token] (tz : Tokenizer Token) (h0 : Inv3 tz)
    (hg : optNoIgn tz.ignore tz.next = true) :
    tz.peek = (((streamP tz).filter (fun x => !can_ignore tz.ignore x.tok)).head?).map PTok.tok := by
  cases hn : tz.next with
  | none =>
    have ht := h0 hn
    simp [Tokenizer.peek, streamP, hn, ht, sOf]
  | some t =>
    rw [hn] at hg
    have hc : can_ignore tz.ignore t = false := by simpa [optNoIgn] using hg
    simp [Tokenizer.peek, streamP, hn, sOf, List.filter_cons, hc]

theorem dead_advance {Token : Type} [TypeEq Token] {tz : Tokenizer Token} (h : DeadState tz) :
    (tz.advance).1 = none ∧ DeadState (tz.advance).2 := by
  obtain ⟨hc, hn, ht⟩ := h
  have hd : (streamP tz).dropWhile (fun x => can_ignore tz.ignore x.tok) = [] := by
    simp [streamP, hn, ht, sOf]
  obtain ⟨h1, h2, h3, h4⟩ := advance_exhaust (fun _ => ht) hd
  exact ⟨h1, h2, h3, h4⟩

theorem dead_advN {Token : Type} [TypeEq Token] :
    ∀ (j : Nat) (tz : Tokenizer Token), DeadState tz → DeadState (Tokenizer.advN j tz) := by
  intro j
  induction j with
  | zero => intro tz h; exact h
  | succ m ih => intro tz h; exact ih _ (dead_advance h).2

/-- C1: refuted as stated.  At a reachable state with current `A "aa"` at
position (0, 2), `expect Space` returns an `Err` positioned at (3, 1) — the
span of the token *after* the mismatched one — and the buffer does change:
`current` becomes `A "b"` and `next` empties.  Likewise `expect_multi`. -/
theorem c1_counterexample :
    c1State.current = some (Tok.A "aa") ∧ c1State.index = 0 ∧ c1State.len = 2 ∧
    (c1State.expect Tok.Space).1 =
      Except.error ⟨some 3, some 1, "expect token Space but got A(\"aa\")"⟩ ∧
    (c1State.expect Tok.Space).2.current = some (Tok.A "b") ∧
    (c1State.expect Tok.Space).2.next = none ∧
    (c1State.expect_multi [Tok.Space]).1 =
      Except.error ⟨some 3, some 1, "expect tokens [Space] but got A(\"aa\")"⟩ ∧
    (c1State.expect_multi [Tok.Space]).2.current = some (Tok.A "b") := by
  decide

/-- C1 (amended): on a class mismatch, `expect` (and `expect_multi` when no
candidate matches) returns an `Err` whose position is the `index`/`len` of
the state *after* one advance (the position of the token following the
mismatched one), and the tokenizer is left in exactly the advanced state —
it consumes the mismatched token rather than leaving the buffer unchanged. -/
theorem c1_amended {Token : Type} [TypeEq Token] [DebugFmt Token] (tz : Tokenizer Token)
    (w got : Token) (ws : List Token) (h1 : tz.current = some got)
    (h2 : type_eq w got = false) (h3 : ws.any (fun t => type_eq got t) = false) :
    (tz.expect w).1 = Except.error ⟨some (tz.advance).2.index, some (tz.advance).2.len,
        "expect token " ++ fmt w ++ " but got " ++ fmt got⟩ ∧
    (tz.expect w).2 = (tz.advance).2 ∧
    (tz.expect_multi ws).1 = Except.error ⟨some (tz.advance).2.index, some (tz.advance).2.len,
        "expect tokens " ++ fmtList ws ++ " but got " ++ fmt got⟩ ∧
    (tz.expect_multi ws).2 = (tz.advance).2 := by
  simp [Tokenizer.expect, Tokenizer.expect_multi, Tokenizer.error, h1, h2, h3]

/-- Witness for `c1_amended` at the concrete state `c1State`. -/
theorem c1_amended_witness :
    c1State.current = some (Tok.A "aa") ∧
    type_eq Tok.Space (Tok.A "aa") = false ∧
    ([Tok.Space].any (fun t => type_eq (Tok.A "aa") t)) = false ∧
    ((c1State.expect Tok.Space).1 =
        Except.error ⟨some (c1State.advance).2.index, some (c1State.advance).2.len,
          "expect token " ++ fmt Tok.Space ++ " but got " ++ fmt (Tok.A "aa")⟩ ∧
      (c1State.expect Tok.Space).2 = (c1State.advance).2 ∧
      (c1State.expect_multi [Tok.Space]).1 =
        Except.error ⟨some (c1State.advance).2.index, some (c1State.advance).2.len,
          "expect tokens " ++ fmtList [Tok.Space] ++ " but got " ++ fmt (Tok.A "aa")⟩ ∧
      (c1State.expect_multi [Tok.Space]).2 = (c1State.advance).2) :=
  ⟨by decide, by decide, by decide,
    c1_amended c1State Tok.Space (Tok.A "aa") [Tok.Space] (by decide) (by decide) (by decide)⟩

/-- C2: refuted as stated.  With no current token (fresh tokenizer over an
empty source), `error` and the end-of-file errors of `expect` /
`expect_multi` still carry `some 0` / `some 0` as position, never `none`. -/
theorem c2_counterexample :
    c2State.current = none ∧
    (c2State.error "m").index = some 0 ∧
    (c2State.error "m").len = some 0 ∧
    ¬ (c2State.error "m").index = none ∧
    (c2State.expect (Tok.A "x")).1 =
      Except.error ⟨some 0, some 0, "expect token A(\"x\") but got end of file"⟩ ∧
    (c2State.expect_multi []).1 =
      Except.error ⟨some 0, some 0, "expect tokens [] but got end of file"⟩ := by
  decide

/-- C2 (amended): `error` always returns an `Error` with *present* position
fields — `some index` and `some len`, the tokenizer's stored position
fields (0 before any advance); with an absent current token, `expect` and
`expect_multi` return that same always-`Some`-positioned error and leave
the state unchanged. -/
theorem c2_amended {Token : Type} [TypeEq Token] [DebugFmt Token] (tz : Tokenizer Token)
    (msg : String) (w : Token) (ws : List Token) (h : tz.current = none) :
    tz.error msg = ⟨some tz.index, some tz.len, msg⟩ ∧
    (tz.expect w).1 = Except.error ⟨some tz.index, some tz.len,
        "expect token " ++ fmt w ++ " but got end of file"⟩ ∧
    (tz.expect w).2 = tz ∧
    (tz.expect_multi ws).1 = Except.error ⟨some tz.index, some tz.len,
        "expect tokens " ++ fmtList ws ++ " but got end of file"⟩ ∧
    (tz.expect_multi ws).2 = tz := by
  simp [Tokenizer.expect, Tokenizer.expect_multi, Tokenizer.error, h]

/-- Witness for `c2_amended` at the concrete state `c2State`. -/
theorem c2_amended_witness :
    c2State.current = none ∧
    (c2State.error "m" = ⟨some c2State.index, some c2State.len, "m"⟩ ∧
      (c2State.expect (Tok.A "x")).1 = Except.error ⟨some c2State.index, some c2State.len,
          "expect token " ++ fmt (Tok.A "x") ++ " but got end of file"⟩ ∧
      (c2State.expect (Tok.A "x")).2 = c2State ∧
      (c2State.expect_multi []).1 = Except.error ⟨some c2State.index, some c2State.len,
          "expect tokens " ++ fmtList ([] : List Tok) ++ " but got end of file"⟩ ∧
      (c2State.expect_multi []).2 = c2State) :=
  ⟨by decide, c2_amended c2State "m" (Tok.A "x") [] (by decide)⟩

/-- C6: when the current token is class-equal to the wanted token,
`expect` returns `Ok` with that current token and leaves the tokenizer in
exactly the state produced by one `advance()` (consume-on-success);
likewise `expect_multi` when some candidate is class-equal. -/
theorem c6_expect_success {Token : Type} [TypeEq Token] [DebugFmt Token] (tz : Tokenizer Token)
    (w got : Token) (ws : List Token) (h1 : tz.current = some got)
    (h2 : type_eq w got = true) (h3 : ws.any (fun t => type_eq got t) = true) :
    (tz.expect w).1 = Except.ok got ∧ (tz.expect w).2 = (tz.advance).2 ∧
    (tz.expect_multi ws).1 = Except.ok got ∧ (tz.expect_multi ws).2 = (tz.advance).2 := by
  simp [Tokenizer.expect, Tokenizer.expect_multi, h1, h2, h3]

/-- Witness for `c6_expect_success` at the concrete state `c1State`. -/
theorem c6_expect_success_witness :
    c1State.current = some (Tok.A "aa") ∧
    type_eq (Tok.A "x") (Tok.A "aa") = true ∧
    ([Tok.A "x"].any (fun t => type_eq (Tok.A "aa") t)) = true ∧
    ((c1State.expect (Tok.A "x")).1 = Except.ok (Tok.A "aa") ∧
      (c1State.expect (Tok.A "x")).2 = (c1State.advance).2 ∧
      (c1State.expect_multi [Tok.A "x"]).1 = Except.ok (Tok.A "aa") ∧
      (c1State.expect_multi [Tok.A "x"]).2 = (c1State.advance).2) :=
  ⟨by decide, by decide, by decide,
    c6_expect_success c1State (Tok.A "x") (Tok.A "aa") [Tok.A "x"]
      (by decide) (by decide) (by decide)⟩

/-- C9: the four error messages are exactly the specified formats, with
the debug rendering of the wanted token(s) and of the actual token. -/
theorem c9_error_messages {Token : Type} [TypeEq Token] [DebugFmt Token]
    (tz tzE : Tokenizer Token) (w got : Token) (ws : List Token)
    (h1 : tz.current = some got) (h2 : type_eq w got = false)
    (h3 : ws.any (fun t => type_eq got t) = false) (hE : tzE.current = none) :
    errMsgOf (tz.expect w).1 = some ("expect token " ++ fmt w ++ " but got " ++ fmt got) ∧
    errMsgOf (tzE.expect w).1 = some ("expect token " ++ fmt w ++ " but got end of file") ∧
    errMsgOf (tz.expect_multi ws).1 =
      some ("expect tokens " ++ fmtList ws ++ " but got " ++ fmt got) ∧
    errMsgOf (tzE.expect_multi ws).1 =
      some ("expect tokens " ++ fmtList ws ++ " but got end of file") := by
  simp [Tokenizer.expect, Tokenizer.expect_multi, Tokenizer.error, errMsgOf, h1, h2, h3, hE]

/-- Witness for `c9_error_messages` at `c1State` (mismatch) and `c2State`
(end of file). -/
theorem c9_error_messages_witness :
    c1State.current = some (Tok.A "aa") ∧
    type_eq Tok.Space (Tok.A "aa") = false ∧
    ([Tok.Space].any (fun t => type_eq (Tok.A "aa") t)) = false ∧
    c2State.current = none ∧
    (errMsgOf (c1State.expect Tok.Space).1 =
        some ("expect token " ++ fmt Tok.Space ++ " but got " ++ fmt (Tok.A "aa")) ∧
      errMsgOf (c2State.expect Tok.Space).1 =
        some ("expect token " ++ fmt Tok.Space ++ " but got end of file") ∧
      errMsgOf (c1State.expect_multi [Tok.Space]).1 =
        some ("expect tokens " ++ fmtList [Tok.Space] ++ " but got " ++ fmt (Tok.A "aa")) ∧
      errMsgOf (c2State.expect_multi [Tok.Space]).1 =
        some ("expect tokens " ++ fmtList [Tok.Space] ++ " but got end of file")) :=
  ⟨by decide, by decide, by decide, by decide,
    c9_error_messages c1State c2State Tok.Space (Tok.A "aa") [Tok.Space]
      (by decide) (by decide) (by decide) (by decide)⟩

/-- C10: `expect_multi []` never returns `Ok`: for any state the result is
an error; with no current token it is the end-of-file error (state kept);
with a current token present the stream is advanced once and the mismatch
error `"expect tokens [] but got {got:?}"` is returned. -/
theorem c10_expect_multi_empty {Token : Type} [TypeEq Token] [DebugFmt Token]
    (tzA tz tzE : Tokenizer Token) (got : Token)
    (h1 : tz.current = some got) (hE : tzE.current = none) :
    exOk (tzA.expect_multi ([] : List Token)).1 = false ∧
    (tzE.expect_multi []).1 = Except.error ⟨some tzE.index, some tzE.len,
        "expect tokens [] but got end of file"⟩ ∧
    (tzE.expect_multi []).2 = tzE ∧
    (tz.expect_multi []).1 = Except.error ⟨some (tz.advance).2.index, some (tz.advance).2.len,
        "expect tokens [] but got " ++ fmt got⟩ ∧
    (tz.expect_multi []).2 = (tz.advance).2 := by
  have hnil : fmtList ([] : List Token) = "[]" := rfl
  refine ⟨?_, ?_, ?_, ?_, ?_⟩
  · cases hA : tzA.current <;>
      simp [Tokenizer.expect_multi, Tokenizer.error, exOk, hA]
  · simp [Tokenizer.expect_multi, Tokenizer.error, hnil, hE]
  · simp [Tokenizer.expect_multi, hE]
  · simp [Tokenizer.expect_multi, Tokenizer.error, hnil, h1]
  · simp [Tokenizer.expect_multi, h1]

/-- Witness for `c10_expect_multi_empty` at `c1State` and `c2State`. -/
theorem c10_expect_multi_empty_witness :
    c1State.current = some (Tok.A "aa") ∧
    c2State.current = none ∧
    (exOk (c1State.expect_multi ([] : List Tok)).1 = false ∧
      (c2State.expect_multi []).1 = Except.error ⟨some c2State.index, some c2State.len,
          "expect tokens [] but got end of file"⟩ ∧
      (c2State.expect_multi []).2 = c2State ∧
      (c1State.expect_multi []).1 =
        Except.error ⟨some (c1State.advance).2.index, some (c1State.advance).2.len,
          "expect tokens [] but got " ++ fmt (Tok.A "aa")⟩ ∧
      (c1State.expect_multi []).2 = (c1State.advance).2) :=
  ⟨by decide, by decide,
    c10_expect_multi_empty c1State c1State c2State (Tok.A "aa") (by decide) (by decide)⟩

/-- C4: for a class-symmetric `TypeEq`, the sequence of positioned tokens
produced by successive `advance()` calls (up to the first absent result)
is exactly the subsequence of the source obtained by removing every token
whose class is in the ignore set, in source order. -/
theorem c4_order_preservation {Token : Type} [TypeEq Token] (lx : Lexer Token) (I : List Token)
    (hs : TypeEqSymm Token) :
    Tokenizer.emitP (lx.toks.length + 1) (Tokenizer.new lx I) =
      lx.toks.filter (fun x => !can_ignore I x.tok) := by
  obtain ⟨_, _, _, hig, _, hinv, hstr⟩ := new_spec lx I
  have hstr2 : streamP (Tokenizer.new lx I) =
      lx.toks.dropWhile (fun x => can_ignore I x.tok) := by
    rw [hstr, dropWhile_newIgnored_eq hs]
  have hlen : (streamP (Tokenizer.new lx I)).length < lx.toks.length + 1 := by
    rw [hstr2]
    have := length_dropWhile_le (fun x : PTok Token => can_ignore I x.tok) lx.toks
    omega
  have h := emitP_eq (lx.toks.length + 1) (Tokenizer.new lx I) hinv hlen
  simp only [hig] at h
  rw [h, hstr2, filter_dropWhile_eq]

/-- Witness for `c4_order_preservation` on the test source. -/
theorem c4_order_preservation_witness :
    TypeEqSymm Tok ∧
    Tokenizer.emitP (aaaLexer.toks.length + 1) (Tokenizer.new aaaLexer [Tok.Space]) =
      aaaLexer.toks.filter (fun x => !can_ignore [Tok.Space] x.tok) :=
  ⟨fun a b => by cases a <;> cases b <;> rfl,
    c4_order_preservation aaaLexer [Tok.Space] (fun a b => by cases a <;> cases b <;> rfl)⟩

/-- C3: for a class-symmetric `TypeEq`, at every reachable state (any
number of advances after construction) neither `current()` nor `peek()`
holds a token whose class is in the ignore set. -/
theorem c3_ignore_transparency {Token : Type} [TypeEq Token] (lx : Lexer Token) (I : List Token)
    (hs : TypeEqSymm Token) (k : Nat) :
    optNoIgn I ((Tokenizer.advN k (Tokenizer.new lx I)).current) = true ∧
    optNoIgn I ((Tokenizer.advN k (Tokenizer.new lx I)).peek) = true := by
  obtain ⟨hcur, _, _, hig, _, hinv, hstr⟩ := new_spec lx I
  cases k with
  | zero =>
    constructor
    · rw [show Tokenizer.advN 0 (Tokenizer.new lx I) = Tokenizer.new lx I from rfl, hcur]
      rfl
    · rw [show Tokenizer.advN 0 (Tokenizer.new lx I) = Tokenizer.new lx I from rfl]
      cases hn : (Tokenizer.new lx I).next with
      | none =>
        show optNoIgn I ((Tokenizer.new lx I).next) = true
        rw [hn]
        rfl
      | some t =>
        show optNoIgn I ((Tokenizer.new lx I).next) = true
        rw [hn]
        have hstrc : streamP (Tokenizer.new lx I) =
            ⟨t, (Tokenizer.new lx I).next_index, (Tokenizer.new lx I).next_len⟩ ::
              (Tokenizer.new lx I).lexer.toks := by
          simp [streamP, hn, sOf]
        rw [hstrc] at hstr
        have hni : newIgnored I t = false :=
          dropWhile_head_false (fun x => newIgnored I x.tok) lx.toks
            ⟨t, (Tokenizer.new lx I).next_index, (Tokenizer.new lx I).next_len⟩
            ((Tokenizer.new lx I).lexer.toks) hstr.symm
        have hc : can_ignore I t = false := by
          rw [← newIgnored_eq_can hs]
          exact hni
        simp [optNoIgn, hc]
  | succ m =>
    rw [advN_succ_comm]
    have ik := (advN_spec m (Tokenizer.new lx I) hinv).1
    have hIgk : (Tokenizer.advN m (Tokenizer.new lx I)).ignore = I :=
      ((advN_spec m (Tokenizer.new lx I) hinv).2.1).trans hig
    obtain ⟨g1, g2⟩ := advance_good ik
    rw [hIgk] at g1 g2
    exact ⟨g1, g2⟩

/-- Witness for `c3_ignore_transparency` on the test source after one
advance. -/
theorem c3_ignore_transparency_witness :
    TypeEqSymm Tok ∧
    (optNoIgn [Tok.Space] ((Tokenizer.advN 1 (Tokenizer.new aaaLexer [Tok.Space])).current) = true ∧
      optNoIgn [Tok.Space] ((Tokenizer.advN 1 (Tokenizer.new aaaLexer [Tok.Space])).peek) = true) :=
  ⟨fun a b => by cases a <;> cases b <;> rfl,
    c3_ignore_transparency aaaLexer [Tok.Space] (fun a b => by cases a <;> cases b <;> rfl) 1⟩

/-- C5: for a class-symmetric `TypeEq`, the (k+1)-st `advance()` returns
the k-th element of the ignore-filtered source, and immediately afterwards
`peek()` returns the (k+1)-st element of the ignore-filtered source (the
next non-ignorable token after the one just produced), or absent if none
remains. -/
theorem c5_lookahead {Token : Type} [TypeEq Token] (lx : Lexer Token) (I : List Token)
    (hs : TypeEqSymm Token) (k : Nat) :
    ((Tokenizer.advN k (Tokenizer.new lx I)).advance).1 =
      ((lx.toks.filter (fun x => !can_ignore I x.tok))[k]?).map PTok.tok ∧
    ((Tokenizer.advN (k + 1) (Tokenizer.new lx I)).peek) =
      ((lx.toks.filter (fun x => !can_ignore I x.tok))[k + 1]?).map PTok.tok := by
  obtain ⟨_, _, _, hig, _, hinv, hstr⟩ := new_spec lx I
  have hstr2 : streamP (Tokenizer.new lx I) =
      lx.toks.dropWhile (fun x => can_ignore I x.tok) := by
    rw [hstr, dropWhile_newIgnored_eq hs]
  have hfil : (streamP (Tokenizer.new lx I)).filter (fun x => !can_ignore I x.tok) =
      lx.toks.filter (fun x => !can_ignore I x.tok) := by
    rw [hstr2, filter_dropWhile_eq]
  have ik := (advN_spec k (Tokenizer.new lx I) hinv).1
  have hIgk : (Tokenizer.advN k (Tokenizer.new lx I)).ignore = I :=
    ((advN_spec k (Tokenizer.new lx I) hinv).2.1).trans hig
  have ifil := (advN_spec k (Tokenizer.new lx I) hinv).2.2
  simp only [hig] at ifil
  constructor
  · rw [advance_res_head ik]
    simp only [hIgk]
    rw [ifil, hfil, head?_drop_eq]
  · have jk := (advN_spec (k + 1) (Tokenizer.new lx I) hinv).1
    have hIg1 : (Tokenizer.advN (k + 1) (Tokenizer.new lx I)).ignore = I :=
      ((advN_spec (k + 1) (Tokenizer.new lx I) hinv).2.1).trans hig
    have jfil := (advN_spec (k + 1) (Tokenizer.new lx I) hinv).2.2
    simp only [hig] at jfil
    have hgood : optNoIgn I ((Tokenizer.advN (k + 1) (Tokenizer.new lx I)).next) = true := by
      rw [advN_succ_comm]
      have hg := (advance_good ik).2
      rw [hIgk] at hg
      exact hg
    have hp := peek_filter_head (Tokenizer.advN (k + 1) (Tokenizer.new lx I)) jk
      (by rw [hIg1]; exact hgood)
    rw [hp]
    simp only [hIg1]
    rw [jfil, hfil, head?_drop_eq]

/-- Witness for `c5_lookahead` on the test source at k = 1. -/
theorem c5_lookahead_witness :
    TypeEqSymm Tok ∧
    (((Tokenizer.advN 1 (Tokenizer.new aaaLexer [Tok.Space])).advance).1 =
        ((aaaLexer.toks.filter (fun x => !can_ignore [Tok.Space] x.tok))[1]?).map PTok.tok ∧
      ((Tokenizer.advN (1 + 1) (Tokenizer.new aaaLexer [Tok.Space])).peek) =
        ((aaaLexer.toks.filter (fun x => !can_ignore [Tok.Space] x.tok))[1 + 1]?).map PTok.tok) :=
  ⟨fun a b => by cases a <;> cases b <;> rfl,
    c5_lookahead aaaLexer [Tok.Space] (fun a b => by cases a <;> cases b <;> rfl) 1⟩

/-- C7: for a class-symmetric `TypeEq`, immediately after construction
`current()` is absent and `peek()` is the first source token whose class
is not in the ignore set (or absent if there is none). -/
theorem c7_construction {Token : Type} [TypeEq Token] (lx : Lexer Token) (I : List Token)
    (hs : TypeEqSymm Token) :
    (Tokenizer.new lx I).current = none ∧
    (Tokenizer.new lx I).peek =
      (lx.toks.find? (fun x => !can_ignore I x.tok)).map PTok.tok := by
  obtain ⟨hcur, _, _, _, _, hinv, hstr⟩ := new_spec lx I
  have hstr2 : streamP (Tokenizer.new lx I) =
      lx.toks.dropWhile (fun x => can_ignore I x.tok) := by
    rw [hstr, dropWhile_newIgnored_eq hs]
  refine ⟨hcur, ?_⟩
  rw [peek_streamP (Tokenizer.new lx I) hinv, hstr2,
    ← List.find?_not_eq_head?_dropWhile (fun x : PTok Token => can_ignore I x.tok) lx.toks]

/-- Witness for `c7_construction` on the test source. -/
theorem c7_construction_witness :
    TypeEqSymm Tok ∧
    ((Tokenizer.new aaaLexer [Tok.Space]).current = none ∧
      (Tokenizer.new aaaLexer [Tok.Space]).peek =
        (aaaLexer.toks.find? (fun x => !can_ignore [Tok.Space] x.tok)).map PTok.tok) :=
  ⟨fun a b => by cases a <;> cases b <;> rfl,
    c7_construction aaaLexer [Tok.Space] (fun a b => by cases a <;> cases b <;> rfl)⟩

/-- C8: once an `advance()` call on a reachable state returns absent, the
state is terminal: after any number of further advances `current()` and
`peek()` are absent and `advance()` keeps returning absent. -/
theorem c8_terminal {Token : Type} [TypeEq Token] (lx : Lexer Token) (I : List Token) (k j : Nat)
    (h : ((Tokenizer.advN k (Tokenizer.new lx I)).advance).1 = none) :
    (Tokenizer.advN j (((Tokenizer.advN k (Tokenizer.new lx I)).advance).2)).current = none ∧
    (Tokenizer.advN j (((Tokenizer.advN k (Tokenizer.new lx I)).advance).2)).peek = none ∧
    ((Tokenizer.advN j (((Tokenizer.advN k (Tokenizer.new lx I)).advance).2)).advance).1 =
      none := by
  obtain ⟨_, _, _, _, _, hinv, _⟩ := new_spec lx I
  have ik := (advN_spec k (Tokenizer.new lx I) hinv).1
  have hdead : DeadState (((Tokenizer.advN k (Tokenizer.new lx I)).advance).2) := by
    cases hd : (streamP (Tokenizer.advN k (Tokenizer.new lx I))).dropWhile
        (fun x => can_ignore (Tokenizer.advN k (Tokenizer.new lx I)).ignore x.tok) with
    | nil =>
      obtain ⟨_, h2, h3, h4⟩ := advance_exhaust ik hd
      exact ⟨h2, h3, h4⟩
    | cons q rest =>
      obtain ⟨h1, _⟩ := advance_step ik hd
      rw [h] at h1
      exact Option.noConfusion h1
  obtain ⟨d1, d2, d3⟩ := dead_advN j _ hdead
  exact ⟨d1, d2, (dead_advance ⟨d1, d2, d3⟩).1⟩

/-- Witness for `c8_terminal`: on the test source the fifth advance
returns absent, and two further advances stay absent. -/
theorem c8_terminal_witness :
    ((Tokenizer.advN 4 (Tokenizer.new aaaLexer [Tok.Space])).advance).1 = none ∧
    ((Tokenizer.advN 2 (((Tokenizer.advN 4 (Tokenizer.new aaaLexer [Tok.Space])).advance).2)).current = none ∧
      (Tokenizer.advN 2 (((Tokenizer.advN 4 (Tokenizer.new aaaLexer [Tok.Space])).advance).2)).peek = none ∧
      ((Tokenizer.advN 2 (((Tokenizer.advN 4 (Tokenizer.new aaaLexer [Tok.Space])).advance).2)).advance).1 = none) :=
  ⟨by decide, c8_terminal aaaLexer [Tok.Space] 4 2 (by decide)⟩

end TokenizerModel
